import Mathlib

/-!
Verification development for the StockX scraper (`src/stockx.py`).

The program fetches product-listing and sales-history JSON documents from a
marketplace API, accumulates them in two shared lists, projects them to
tables, forward-fills the product identifier column and left-joins the two
tables.  The definitions below are a shallow embedding of that code:

* `Json` models parsed JSON documents (numbers as integers, which suffices
  for every value the claims touch).
* `PyError` models the Python exceptions the relevant operations can raise
  (`requests` transport errors, `json.loads` decode errors, `KeyError`,
  `TypeError`, `IndexError`, `ValueError`, `AttributeError`).
* an HTTP environment maps a URL to the result of
  `json.loads(requests.get(url).text)`: either a parsed document or the
  error raised on the way.
* `concurrent.futures.ThreadPoolExecutor().map(f, urls)` with a discarded
  result iterator is modelled by a fold over the completion order of the
  workers (an arbitrary permutation of the input URLs): list appends are
  atomic, each worker appends at most one document, and an exception raised
  inside a worker is captured by the executor inside the never-consumed
  future, so it only suppresses that worker's append.
-/

deriving instance DecidableEq for Except

namespace StockXSpec

mutual
/-- Parsed JSON values, the result type of `json.loads`.  Arrays and objects
hold their elements through the mutual types `JsonList` and `JsonFields`
(isomorphic to ordinary lists, see `JsonList.toList` and
`JsonFields.toList`) so that equality and recursion stay structural. -/
inductive Json where
  | null
  | bool (b : Bool)
  | num (n : Int)
  | str (s : String)
  | arr (elems : JsonList)
  | obj (fields : JsonFields)
  deriving DecidableEq
/-- A list of JSON values, the payload of `Json.arr`. -/
inductive JsonList where
  | nil
  | cons (hd : Json) (tl : JsonList)
  deriving DecidableEq
/-- The key/value bindings of `Json.obj`, in insertion order. -/
inductive JsonFields where
  | nil
  | cons (k : String) (v : Json) (tl : JsonFields)
  deriving DecidableEq
end

/-- View of a `JsonList` as an ordinary list. -/
def JsonList.toList : JsonList → List Json
  | .nil => []
  | .cons x xs => x :: xs.toList

/-- Build a `JsonList` from an ordinary list. -/
def JsonList.ofList : List Json → JsonList
  | [] => .nil
  | x :: xs => .cons x (JsonList.ofList xs)

/-- View of the bindings of a JSON object as an ordinary list. -/
def JsonFields.toList : JsonFields → List (String × Json)
  | .nil => []
  | .cons k v fs => (k, v) :: fs.toList

/-- Build object bindings from an ordinary list. -/
def JsonFields.ofList : List (String × Json) → JsonFields
  | [] => .nil
  | (k, v) :: fs => .cons k v (JsonFields.ofList fs)

/-- A JSON array given by an ordinary list of elements. -/
def Json.mkArr (l : List Json) : Json := .arr (JsonList.ofList l)

/-- A JSON object given by an ordinary list of bindings. -/
def Json.mkObj (l : List (String × Json)) : Json := .obj (JsonFields.ofList l)

/-- Python exceptions raised by the operations the scraper performs. -/
inductive PyError where
  | networkError
  | jsonDecodeError
  | keyError (k : String)
  | typeError
  | indexError
  | valueError
  | attributeError
  deriving DecidableEq

/-- All records of a JSON list are dicts (the shape `pd.json_normalize`
accepts without error). -/
def JsonList.allObjs : JsonList → Bool
  | .nil => true
  | .cons (.obj _) rest => rest.allObjs
  | .cons _ _ => false

/-- Lookup of a key in a Python dict, first binding wins. -/
def lookupKey (k : String) : JsonFields → Option Json
  | .nil => none
  | .cons k' v rest => if k' = k then some v else lookupKey k rest

/-- Python dict assignment `d[k] = v`: replace the first binding of `k` in
place, or append a new binding. -/
def setKey (k : String) (v : Json) : JsonFields → JsonFields
  | .nil => .cons k v .nil
  | .cons k' v' rest =>
    if k' = k then .cons k' v rest else .cons k' v' (setKey k v rest)

/-- Python subscript `data[k]` with a string key: dict lookup raising
`KeyError` on a missing key, `TypeError` on a non-dict value. -/
def pyGetItem : Json → String → Except PyError Json
  | .obj fields, k =>
    match lookupKey k fields with
    | some v => .ok v
    | none => .error (.keyError k)
  | _, _ => .error .typeError

/-- Python subscript `l[i]` on a list, raising `IndexError` out of range. -/
def pyIndex {α : Type} (l : List α) (i : Nat) : Except PyError α :=
  match l[i]? with
  | some x => .ok x
  | none => .error .indexError

/-- Worker for `int(s)`: read a non-empty run of decimal digits. -/
def pyIntAux : List Char → Nat → Option Nat
  | [], acc => some acc
  | c :: rest, acc =>
    if c.isDigit then pyIntAux rest (acc * 10 + (c.toNat - 48)) else none

/-- Python `int(s)`, raising `ValueError` when `s` is not an integer
literal.  An optional sign followed by decimal digits is accepted;
the surrounding-whitespace and underscore-separator lenience of `int` is
not modelled, no string this program passes to `int` uses it. -/
def pyInt (s : String) : Except PyError Int :=
  match s.data with
  | [] => .error .valueError
  | '-' :: [] => .error .valueError
  | '-' :: rest =>
    match pyIntAux rest 0 with
    | some n => .ok (-(n : Int))
    | none => .error .valueError
  | '+' :: [] => .error .valueError
  | '+' :: rest =>
    match pyIntAux rest 0 with
    | some n => .ok (n : Int)
    | none => .error .valueError
  | l =>
    match pyIntAux l 0 with
    | some n => .ok (n : Int)
    | none => .error .valueError

/-- Access to a string method (`.split`) on a JSON value: only `str` values
have it, anything else raises `AttributeError`. -/
def pyStrVal : Json → Except PyError String
  | .str s => .ok s
  | _ => .error .attributeError

/-- The spec's ParseError class, as the error-handling design applies it to
the pagination resolver: everything except a transport failure (invalid
JSON, and every exception the pagination extraction itself can raise —
missing field, wrong type, missing `page=` marker, non-numeric page). -/
def PyError.isParseError : PyError → Bool
  | .networkError => false
  | _ => true

/-- Worker for `str.split`.  The fuel argument only serves structural
termination; it is always called with at least the length of the scanned
list, which makes the zero case unreachable. -/
def splitAux (sep : List Char) : Nat → List Char → List Char → List (List Char)
  | _, [], acc => [acc.reverse]
  | 0, l, acc => [acc.reverse ++ l]
  | fuel + 1, c :: rest, acc =>
    if sep.isPrefixOf (c :: rest) then
      acc.reverse :: splitAux sep fuel (rest.drop (sep.length - 1)) []
    else
      splitAux sep fuel rest (c :: acc)

/-- Split a character list at every occurrence of a non-empty separator. -/
def splitList (sep l : List Char) : List (List Char) :=
  splitAux sep l.length l []

/-- Whether the separator occurs somewhere in the list (as a contiguous
sublist). -/
def hasOcc (sep : List Char) : List Char → Bool
  | [] => sep.isEmpty
  | c :: rest => sep.isPrefixOf (c :: rest) || hasOcc sep rest

/-- Python `s.split(sep)` for a non-empty separator. -/
def pySplit (s sep : String) : List String :=
  (splitList sep.data s.data).map fun cs => String.mk cs

/-- URL of the StockX products API, the value assigned to `self.api`. -/
def api : String := "https://stockx.com/api/browse?"

/-- URL of the StockX sales API, the value assigned to `self.sales_api`. -/
def sales_api : String := "https://stockx.com/api/products/"

/-- The listing URL built by `get_category_urls`, with the `page` number
rendered in decimal exactly as the Python f-string does. -/
def listingUrl (tag category : String) (page : Nat) : String :=
  api ++ "_tags=" ++ tag ++ "&productCategory=" ++ category ++ "&page=" ++ toString page

/-- An HTTP environment: the behaviour of
`json.loads(requests.get(url, headers).text)` for every URL of one run. -/
def HttpEnv : Type := String → Except PyError Json

/-- Embedding of `int(data['Pagination']['lastPage'].split('page=')[1].split('&')[0])`
for an already extracted `lastPage` string. -/
def lastPageOf (s : String) : Except PyError Int := do
  let seg ← pyIndex (pySplit s "page=") 1
  let lead ← pyIndex (pySplit seg "&") 0
  pyInt lead

/-- The pagination extraction performed by `get_category_urls` on the parsed
page-1 listing response. -/
def paginationParse (data : Json) : Except PyError Int := do
  let pag ← pyGetItem data "Pagination"
  let lastPageJson ← pyGetItem pag "lastPage"
  let s ← pyStrVal lastPageJson
  lastPageOf s

namespace StockX

/-- Embedding of `StockX.get_category_urls`: fetch page 1, parse the last
page number out of the pagination field, and build one listing URL per page
in `range(1, last_page + 1)`. -/
def get_category_urls (env : HttpEnv) (tag category : String) :
    Except PyError (List String) := do
  let data ← env (listingUrl tag category 1)
  let last_page ← paginationParse data
  pure ((List.range last_page.toNat).map fun i => listingUrl tag category (i + 1))

/-- One unit of work of `StockX._scrape`: fetch and parse one URL.  The
append of the resulting document to `self._scraped_products` is performed by
the executor model `executor_map` below. -/
def _scrape (env : HttpEnv) (url : String) : Except PyError Json :=
  env url

/-- Embedding of `data['ProductActivity'][0]['productId'] = url.split('/')[5]`,
evaluated in Python's order: right-hand side first, then the subscript
chain of the target. -/
def injectId (url : String) (data : Json) : Except PyError Json := do
  let pid ← pyIndex (pySplit url "/") 5
  let activity ← pyGetItem data "ProductActivity"
  match activity with
  | .arr .nil => .error .indexError
  | .arr (.cons (.obj f0) rest) =>
      pure (setObjField data "ProductActivity"
        (.arr (.cons (.obj (setKey "productId" (.str pid) f0)) rest)))
  | .arr (.cons _ _) => .error .typeError
  | _ => .error .typeError
where
  /-- In-place update of a field of a JSON object. -/
  setObjField : Json → String → Json → Json
    | .obj fields, k, v => .obj (setKey k v fields)
    | j, _, _ => j

/-- One unit of work of `StockX._scrape_sales_history`: fetch and parse one
URL and inject the product id segment of the URL into the first activity
entry.  The append to `self._scraped_sales_history` is performed by
`executor_map`. -/
def _scrape_sales_history (env : HttpEnv) (url : String) : Except PyError Json := do
  let data ← env url
  injectId url data

/-- Model of `with ThreadPoolExecutor() as ex: ex.map(unit-and-append, urls)`
with the result iterator discarded: the workers' appends to the shared
accumulator happen in some completion order (a permutation of the input
URLs, quantified in the theorems); a worker that raises is captured by its
future and appends nothing. -/
def executor_map (unit : String → Except PyError Json) (acc : List Json)
    (order : List String) : List Json :=
  order.foldl (fun st u =>
    match unit u with
    | .ok doc => st ++ [doc]
    | .error _ => st) acc

/-- Embedding of `StockX.get_product_info`: `order` is the completion order
of the pool's workers, a permutation of the input URL list. -/
def get_product_info (env : HttpEnv) (acc : List Json) (order : List String) :
    List Json :=
  executor_map (_scrape env) acc order

/-- The sales-history URL `get_product_sales_history` builds for a product
id. -/
def salesUrl (product : String) : String :=
  sales_api ++ product ++ "/activity?state=480&currency=USD&limit=10000&page=1"

/-- Embedding of `StockX.get_product_sales_history`: `order` is the
completion order of the pool's workers, a permutation of
`products.map salesUrl`. -/
def get_product_sales_history (env : HttpEnv) (acc : List Json)
    (order : List String) : List Json :=
  executor_map (_scrape_sales_history env) acc order

end StockX

/-! ### The tabular layer: `pandas` as used by the program -/

/-- A dataframe row: flattened column name to JSON value, in column order.
A column missing from a row is a NaN cell of that row. -/
abbrev Row := List (String × Json)

/-- Lookup of a column value in a row. -/
def lookupRow (k : String) : Row → Option Json
  | [] => none
  | (k', v) :: rest => if k' = k then some v else lookupRow k rest

/-- Assignment into a row (also used for a Python instance `__dict__`):
replace the first binding in place or append. -/
def setRow (k : String) (v : Json) : Row → Row
  | [] => [(k, v)]
  | (k', v') :: rest => if k' = k then (k', v) :: rest else (k', v') :: setRow k v rest

mutual
/-- Flattening of one value under a column name, as `pd.json_normalize`
does it: a nested dict is recursively flattened with dot-joined names, any
other value (scalars, nulls, lists) is kept as the cell value under the
name built so far. -/
def flattenVal (key : String) : Json → Row
  | .obj fields => flattenNested key fields
  | v => [(key, v)]
/-- Flattening of the bindings of a nested dict below a parent name: every
binding is qualified as `parent.key`. -/
def flattenNested (pre : String) : JsonFields → Row
  | .nil => []
  | .cons k v rest => flattenVal (pre ++ "." ++ k) v ++ flattenNested pre rest
end

/-- Flattening of one record of `pd.json_normalize`: top-level keys are
used unqualified, nested dicts get dotted names. -/
def flattenTop : JsonFields → Row
  | .nil => []
  | .cons k v rest => flattenVal k v ++ flattenTop rest

/-- Embedding of `pd.json_normalize(data)`: one row per record of a list of
dicts (a single dict yields one row); a record that is not a dict raises
`AttributeError` inside pandas. -/
def json_normalize (data : Json) : Except PyError (List Row) :=
  match data with
  | .obj fields => .ok [flattenTop fields]
  | .arr elems => normList elems
  | _ => .error .attributeError
where
  /-- Normalize the records of a list one by one. -/
  normList : JsonList → Except PyError (List Row)
    | .nil => .ok []
    | .cons (.obj fields) rest => do
        let rows ← normList rest
        pure (flattenTop fields :: rows)
    | .cons _ _ => .error .attributeError

/-- Embedding of `pd.concat(dfs, ignore_index=True)`: raises `ValueError`
on an empty list of frames, otherwise concatenates the rows (the column set
becomes the union of the frames' columns; in the row representation used
here a row simply lacks the columns it has no value for). -/
def pd_concat (dfs : List (List Row)) : Except PyError (List Row) :=
  match dfs with
  | [] => .error .valueError
  | _ => .ok dfs.flatten

namespace StockX

/-- Embedding of `StockX.product_info_to_dataframe`: normalize the
`Products` list of every accumulated document and concatenate. -/
def product_info_to_dataframe (scraped_products : List Json) :
    Except PyError (List Row) := do
  let dfs ← scraped_products.mapM fun data => do
    let products ← pyGetItem data "Products"
    json_normalize products
  pd_concat dfs

/-- Embedding of `StockX.sales_history_to_dataframe`: normalize the
`ProductActivity` list of every accumulated document and concatenate. -/
def sales_history_to_dataframe (scraped_sales_history : List Json) :
    Except PyError (List Row) := do
  let dfs ← scraped_sales_history.mapM fun data => do
    let activity ← pyGetItem data "ProductActivity"
    json_normalize activity
  pd_concat dfs

end StockX

/-- The rows `pd.json_normalize` produces for a list of dict records, used
to state what the projector yields (`entryRows` only describes lists that
satisfy `JsonList.allObjs`; the catch-all branch is never relevant then). -/
def entryRows : JsonList → List Row
  | .nil => []
  | .cons (.obj g) rest => flattenTop g :: entryRows rest
  | .cons _ rest => entryRows rest

/-- The list field a projector run extracts from a document (its `Products`
or `ProductActivity` entry list). -/
def extractList (key : String) (d : Json) : JsonList :=
  match pyGetItem d key with
  | .ok (.arr l) => l
  | _ => .nil

/-- The document has the extraction key, bound to a list of dicts — the
shape hypothesis of the projector claims, as a decidable check. -/
def extractsObjList (key : String) (d : Json) : Bool :=
  match pyGetItem d key with
  | .ok (.arr l) => l.allObjs
  | _ => false

/-- The column names present in a table, with multiplicity (the column set
is its set of members). -/
def tableCols (t : List Row) : List String :=
  (t.map fun r => r.map Prod.fst).flatten

/-- The value of a dataframe cell: `none` is NaN, which results both from a
column absent from the row and from a JSON `null` value (pandas stores
both as missing data). -/
def dfCell (row : Row) (k : String) : Option Json :=
  match lookupRow k row with
  | some .null => none
  | some v => some v
  | none => none

/-- The `productId` column of the sales table, as read by
`df['productId']` in `main`. -/
def productIdColumn (t : List Row) : List (Option Json) :=
  t.map fun row => dfCell row "productId"

/-- The shape of one stored sales-history record, used to state the
identifier invariant: a record documents a product `pid`, its
`ProductActivity` list starts with the entry with bindings `e0` (the one
the scraper injected the identifier into) followed by the entries of
`rest`. -/
structure SalesShape where
  pid : String
  doc : Json
  e0 : JsonFields
  rest : JsonList
  deriving DecidableEq

/-- Worker for forward fill, carrying the last value seen so far. -/
def ffillAux {α : Type} (last : Option α) : List (Option α) → List (Option α)
  | [] => []
  | none :: rest => last :: ffillAux last rest
  | some v :: rest => some v :: ffillAux (some v) rest

/-- Embedding of `column.fillna(method='ffill')`: every missing cell takes
the nearest preceding present value, cells before the first present value
stay missing. -/
def ffill {α : Type} (col : List (Option α)) : List (Option α) :=
  ffillAux none col

/-- The last present value of a column, used to state what forward fill
produces at each position. -/
def lastValue {α : Type} (col : List (Option α)) : Option α :=
  col.foldl (fun acc x => match x with | some v => some v | none => acc) none

/-- Key comparison of `pd.merge`: two cells match when both are present and
equal; a NaN key never matches anything, including another NaN. -/
def mergeKeyMatch (a b : Option Json) : Bool :=
  match a, b with
  | some x, some y => decide (x = y)
  | _, _ => false

/-- Embedding of `df.merge(right, how='left', left_on=lk, right_on=rk)`:
every left row is retained; a left row is paired with every matching right
row, or with no right row (all right-derived columns NaN) when nothing
matches.  The output row `(l, some r)` stands for the concatenation of the
cells of `l` and `r`, and `(l, none)` for `l` padded with NaN right
columns. -/
def merge_left (left right : List Row) (lk rk : String) : List (Row × Option Row) :=
  left.flatMap fun l =>
    let ms := right.filter fun r => mergeKeyMatch (dfCell l lk) (dfCell r rk)
    match ms with
    | [] => [(l, none)]
    | _ => ms.map fun r => (l, some r)

/-! ### Attribute semantics of the `StockX` class (the `@property` block) -/

/-- How an attribute name resolves on the `StockX` class object. -/
inductive AttrKind where
  | plainAttr
  | getterOnlyProp
  | getterSetterProp
  deriving DecidableEq

/-- The class attribute table produced by the class body of `StockX`:
`api`, `sales_api`, `headers` and `_scraped_products` are `@property`
getters without a setter (the `@headers.setter` decorator was applied to a
function named `set_headers`, so the setter lands on the class attribute
`set_headers`, not on `headers`); every other name is a plain instance
attribute. -/
def classAttrKind (n : String) : AttrKind :=
  if n = "api" ∨ n = "sales_api" ∨ n = "headers" ∨ n = "_scraped_products" then
    .getterOnlyProp
  else if n = "set_headers" then .getterSetterProp
  else .plainAttr

/-- Python attribute assignment `self.n = v` on a `StockX` instance: a
data descriptor on the class shadows the instance dict, and a property
without a setter raises `AttributeError`; the one property that has a
setter (`set_headers`) runs `self.headers = headers`, which hits the
getter-only property `headers` and raises `AttributeError` as well. -/
def pySetAttr (inst : Row) (n : String) (v : Json) : Except PyError Row :=
  match classAttrKind n with
  | .getterOnlyProp => .error .attributeError
  | .getterSetterProp => .error .attributeError
  | .plainAttr => .ok (setRow n v inst)

namespace StockX

/-- Embedding of `StockX.__init__`: the five attribute assignments, in
source order, starting from an empty instance dict. -/
def init : Except PyError Row := do
  let i1 ← pySetAttr [] "api" (.str api)
  let i2 ← pySetAttr i1 "sales_api" (.str sales_api)
  let i3 ← pySetAttr i2 "headers" .null
  let i4 ← pySetAttr i3 "_scraped_products" (Json.mkArr [])
  pySetAttr i4 "_scraped_sales_history" (Json.mkArr [])

/-- Modelled from the spec: the same constructor over plain fields, the
behaviour the spec's design note prescribes ("implement as plain fields or
conventional accessor methods with no special behavior"). -/
def init_plain : Row :=
  setRow "_scraped_sales_history" (Json.mkArr [])
    (setRow "_scraped_products" (Json.mkArr [])
      (setRow "headers" .null
        (setRow "sales_api" (.str sales_api)
          (setRow "api" (.str api) []))))

end StockX

/-! ### Helper lemmas -/

theorem pyIndex_error {α : Type} (l : List α) (i : Nat) (e : PyError)
    (h : pyIndex l i = .error e) : e = .indexError := by
  unfold pyIndex at h
  cases hl : l[i]? <;> rw [hl] at h <;> simp_all

theorem pyGetItem_error (j : Json) (k : String) (e : PyError)
    (h : pyGetItem j k = .error e) : e = .keyError k ∨ e = .typeError := by
  cases j <;> simp [pyGetItem] at h <;> try exact Or.inr h.symm
  case obj fields =>
    cases hl : lookupKey k fields <;> rw [hl] at h <;> simp_all

theorem pyStrVal_error (j : Json) (e : PyError)
    (h : pyStrVal j = .error e) : e = .attributeError := by
  cases j <;> simp [pyStrVal] at h <;> simp_all

theorem exceptBind_ok {ε α β : Type} (a : α) (f : α → Except ε β) :
    (Except.ok a >>= f) = f a := rfl

theorem exceptBind_error {ε α β : Type} (e : ε) (f : α → Except ε β) :
    ((Except.error e : Except ε α) >>= f) = .error e := rfl

theorem pyInt_error (s : String) (e : PyError)
    (h : pyInt s = .error e) : e = .valueError := by
  unfold pyInt at h
  split at h <;> (try split at h) <;> simp_all

theorem lastPageOf_error (s : String) (e : PyError)
    (h : lastPageOf s = .error e) : e.isParseError = true := by
  unfold lastPageOf at h
  cases h1 : pyIndex (pySplit s "page=") 1 with
  | error e1 =>
      rw [h1] at h
      simp only [exceptBind_error] at h
      cases h
      rw [pyIndex_error _ _ _ h1]
      rfl
  | ok seg =>
      rw [h1] at h
      simp only [exceptBind_ok] at h
      cases h2 : pyIndex (pySplit seg "&") 0 with
      | error e2 =>
          rw [h2] at h
          simp only [exceptBind_error] at h
          cases h
          rw [pyIndex_error _ _ _ h2]
          rfl
      | ok lead =>
          rw [h2] at h
          simp only [exceptBind_ok] at h
          rw [pyInt_error _ _ h]
          rfl

theorem paginationParse_error_isParse (data : Json) (e : PyError)
    (h : paginationParse data = .error e) : e.isParseError = true := by
  unfold paginationParse at h
  cases h1 : pyGetItem data "Pagination" with
  | error e1 =>
      rw [h1] at h
      simp only [exceptBind_error] at h
      cases h
      rcases pyGetItem_error _ _ _ h1 with h' | h' <;> rw [h'] <;> rfl
  | ok pag =>
      rw [h1] at h
      simp only [exceptBind_ok] at h
      cases h2 : pyGetItem pag "lastPage" with
      | error e2 =>
          rw [h2] at h
          simp only [exceptBind_error] at h
          cases h
          rcases pyGetItem_error _ _ _ h2 with h' | h' <;> rw [h'] <;> rfl
      | ok lp =>
          rw [h2] at h
          simp only [exceptBind_ok] at h
          cases h3 : pyStrVal lp with
          | error e3 =>
              rw [h3] at h
              simp only [exceptBind_error] at h
              cases h
              rw [pyStrVal_error _ _ h3]
              rfl
          | ok s =>
              rw [h3] at h
              simp only [exceptBind_ok] at h
              exact lastPageOf_error _ _ h

theorem executor_map_eq_filterMap (unit : String → Except PyError Json)
    (acc : List Json) (order : List String) :
    StockX.executor_map unit acc order =
      acc ++ order.filterMap fun u => (unit u).toOption := by
  induction order generalizing acc with
  | nil => simp [StockX.executor_map]
  | cons u rest ih =>
      have step : StockX.executor_map unit acc (u :: rest) =
          StockX.executor_map unit
            (match unit u with | .ok d => acc ++ [d] | .error _ => acc) rest := rfl
      rw [step, List.filterMap_cons]
      cases h : unit u with
      | ok d =>
          rw [ih]
          simp [Except.toOption, List.append_assoc]
      | error e =>
          rw [ih]
          simp [Except.toOption]

theorem filterMap_eq_map_of {α β : Type} (l : List α) (f : α → Option β) (g : α → β)
    (h : ∀ u ∈ l, f u = some (g u)) : l.filterMap f = l.map g := by
  induction l with
  | nil => rfl
  | cons u rest ih =>
      rw [List.filterMap_cons, h u (by simp), List.map_cons,
        ih fun v hv => h v (by simp [hv])]

theorem splitAux_nil (sep : List Char) (fuel : Nat) (acc : List Char) :
    splitAux sep fuel [] acc = [acc.reverse] := by
  cases fuel <;> rfl

theorem splitAux_fuel (sep : List Char) :
    ∀ (f1 : Nat) (l acc : List Char) (f2 : Nat), l.length ≤ f1 → l.length ≤ f2 →
      splitAux sep f1 l acc = splitAux sep f2 l acc := by
  intro f1
  induction f1 with
  | zero =>
      intro l acc f2 h1 _
      have hl : l = [] := List.eq_nil_of_length_eq_zero (Nat.le_zero.mp h1)
      subst hl
      rw [splitAux_nil, splitAux_nil]
  | succ m ih =>
      intro l acc f2 h1 h2
      cases l with
      | nil => rw [splitAux_nil, splitAux_nil]
      | cons c rest =>
          cases f2 with
          | zero => simp at h2
          | succ m2 =>
              simp only [splitAux]
              have hm : rest.length ≤ m := by
                simp only [List.length_cons] at h1
                omega
              have hm2 : rest.length ≤ m2 := by
                simp only [List.length_cons] at h2
                omega
              by_cases hp : sep.isPrefixOf (c :: rest) = true
              · simp only [hp, if_true]
                have hr : (rest.drop (sep.length - 1)).length ≤ rest.length := by
                  rw [List.length_drop]
                  exact Nat.sub_le _ _
                rw [ih _ [] m2 (Nat.le_trans hr hm) (Nat.le_trans hr hm2)]
              · simp only [hp, if_false]
                exact ih rest (c :: acc) m2 hm hm2

theorem splitAux_acc (sep : List Char) :
    ∀ (f : Nat) (l acc : List Char),
      ∃ r rs, splitAux sep f l [] = r :: rs ∧
        splitAux sep f l acc = (acc.reverse ++ r) :: rs := by
  intro f
  induction f with
  | zero =>
      intro l acc
      cases l with
      | nil => exact ⟨[], [], rfl, by rw [splitAux_nil]; simp⟩
      | cons c rest => exact ⟨c :: rest, [], rfl, rfl⟩
  | succ m ih =>
      intro l acc
      cases l with
      | nil => exact ⟨[], [], rfl, by rw [splitAux_nil]; simp⟩
      | cons c rest =>
          simp only [splitAux]
          by_cases hp : sep.isPrefixOf (c :: rest) = true
          · simp only [hp, if_true]
            refine ⟨[], splitAux sep m (rest.drop (sep.length - 1)) [], ?_, ?_⟩ <;> simp
          · simp only [hp, if_false]
            obtain ⟨r, rs, h1, h2⟩ := ih rest [c]
            obtain ⟨r', rs', h1', h2'⟩ := ih rest (c :: acc)
            rw [h1] at h1'
            cases h1'
            refine ⟨c :: r, rs, ?_, ?_⟩
            · rw [h2]; simp
            · rw [h2']; simp

theorem splitList_cons_match (sep tail : List Char) (hsep : sep ≠ []) :
    splitList sep (sep ++ tail) = [] :: splitList sep tail := by
  cases sep with
  | nil => exact absurd rfl hsep
  | cons s0 srest =>
      have hshape : (s0 :: srest) ++ tail = s0 :: (srest ++ tail) := rfl
      have hlen : ((s0 :: srest) ++ tail).length = (srest ++ tail).length + 1 := by
        simp [Nat.add_comm]
      unfold splitList
      rw [hshape] at hlen ⊢
      rw [hlen]
      simp only [splitAux]
      have hpfx : (s0 :: srest).isPrefixOf (s0 :: (srest ++ tail)) = true := by
        rw [List.isPrefixOf_iff_prefix]
        exact List.prefix_append (s0 :: srest) tail
      simp only [hpfx, if_true]
      have hdrop : (srest ++ tail).drop ((s0 :: srest).length - 1) = tail := by
        simp only [List.length_cons, Nat.add_sub_cancel]
        exact List.drop_left srest tail
      rw [hdrop]
      rw [splitAux_fuel (s0 :: srest) (srest ++ tail).length tail [] tail.length
        (by simp) (Nat.le_refl _)]
      rfl

theorem splitList_cons_nomatch (sep : List Char) (c : Char) (rest : List Char)
    (h : sep.isPrefixOf (c :: rest) = false) :
    ∃ r rs, splitList sep rest = r :: rs ∧
      splitList sep (c :: rest) = (c :: r) :: rs := by
  obtain ⟨r, rs, h1, h2⟩ := splitAux_acc sep rest.length rest [c]
  refine ⟨r, rs, h1, ?_⟩
  unfold splitList
  simp only [List.length_cons, splitAux, h, if_false]
  rw [h2]
  rfl

theorem splitList_no_occ (sep : List Char) :
    ∀ l, hasOcc sep l = false → splitList sep l = [l] := by
  intro l
  induction l with
  | nil => intro _; rfl
  | cons c rest ih =>
      intro h
      have h1 : sep.isPrefixOf (c :: rest) = false := by
        cases hx : sep.isPrefixOf (c :: rest)
        · rfl
        · simp only [hasOcc, hx, Bool.true_or] at h
          exact h
      have h2 : hasOcc sep rest = false := by
        simp only [hasOcc, h1, Bool.false_or] at h
        exact h
      obtain ⟨r, rs, hr1, hr2⟩ := splitList_cons_nomatch sep c rest h1
      rw [ih h2] at hr1
      cases hr1
      exact hr2

theorem splitList_first_occ (sep : List Char) (hsep : sep ≠ []) :
    ∀ (pre post : List Char), hasOcc sep ((pre ++ sep).dropLast) = false →
      splitList sep (pre ++ sep ++ post) = pre :: splitList sep post := by
  intro pre
  induction pre with
  | nil =>
      intro post _
      simpa using splitList_cons_match sep post hsep
  | cons c pre' ih =>
      intro post hocc
      have hne : pre' ++ sep ≠ [] := by
        intro hx
        exact hsep (List.append_eq_nil.mp hx).2
      have hdl : ((c :: pre') ++ sep).dropLast = c :: (pre' ++ sep).dropLast := by
        rw [List.cons_append]
        cases hx : pre' ++ sep with
        | nil => exact absurd hx hne
        | cons y ys => simp [List.dropLast]
      rw [hdl] at hocc
      have h1 : sep.isPrefixOf (c :: (pre' ++ sep).dropLast) = false := by
        cases hx : sep.isPrefixOf (c :: (pre' ++ sep).dropLast)
        · rfl
        · simp only [hasOcc, hx, Bool.true_or] at hocc
          exact hocc
      have h2 : hasOcc sep ((pre' ++ sep).dropLast) = false := by
        simp only [hasOcc, h1, Bool.false_or] at hocc
        exact hocc
      have h1' : sep.isPrefixOf (c :: (pre' ++ (sep ++ post))) = false := by
        cases hx : sep.isPrefixOf (c :: (pre' ++ (sep ++ post)))
        · rfl
        · exfalso
          have hpfx : sep <+: (c :: (pre' ++ (sep ++ post))) :=
            List.isPrefixOf_iff_prefix.mp (by rw [hx])
          have hfill : (c :: (pre' ++ sep).dropLast) ++
              ([(pre' ++ sep).getLast hne] ++ post) = c :: (pre' ++ (sep ++ post)) := by
            rw [List.cons_append]
            rw [← List.append_assoc, List.dropLast_append_getLast hne]
            simp [List.append_assoc]
          have hlen : sep.length ≤ (c :: (pre' ++ sep).dropLast).length := by
            simp only [List.length_cons, List.length_dropLast, List.length_append]
            have hs1 : 1 ≤ sep.length :=
              List.length_pos.mpr hsep
            omega
          have htake : sep = (c :: (pre' ++ sep).dropLast).take sep.length := by
            have h0 := List.prefix_iff_eq_take.mp hpfx
            rw [← hfill, List.take_append_of_le_length hlen] at h0
            exact h0
          have hpfx2 : (c :: (pre' ++ sep).dropLast).take sep.length <+:
              (c :: (pre' ++ sep).dropLast) := List.take_prefix _ _
          rw [← htake] at hpfx2
          rw [← List.isPrefixOf_iff_prefix] at hpfx2
          rw [hpfx2] at h1
          exact Bool.true_eq_false.mp h1
      obtain ⟨r, rs, hr1, hr2⟩ :=
        splitList_cons_nomatch sep c (pre' ++ (sep ++ post)) h1'
      rw [show pre' ++ (sep ++ post) = pre' ++ sep ++ post from
        (List.append_assoc pre' sep post).symm, ih post h2] at hr1
      cases hr1
      have : (c :: pre') ++ sep ++ post = c :: (pre' ++ (sep ++ post)) := by
        simp [List.append_assoc]
      rw [this]
      exact hr2

theorem isPrefixOf_single (c x : Char) (xs : List Char) :
    ([c].isPrefixOf (x :: xs)) = (c == x) := by
  simp [List.isPrefixOf]

theorem hasOcc_single (c : Char) : ∀ l : List Char, c ∉ l → hasOcc [c] l = false := by
  intro l
  induction l with
  | nil => intro _; rfl
  | cons x xs ih =>
      intro h
      have h1 : c ≠ x := fun hx => h (hx ▸ List.mem_cons_self x xs)
      have h2 : c ∉ xs := fun hx => h (List.mem_cons_of_mem x hx)
      simp [hasOcc, isPrefixOf_single, ih h2, h1]

theorem splitList_single_sep (c : Char) (l₁ l₂ : List Char) (h : c ∉ l₁) :
    splitList [c] (l₁ ++ c :: l₂) = l₁ :: splitList [c] l₂ := by
  have h1 : hasOcc [c] ((l₁ ++ [c]).dropLast) = false := by
    rw [List.dropLast_concat]
    exact hasOcc_single c l₁ h
  have := splitList_first_occ [c] (by simp) l₁ l₂ h1
  simpa [List.append_assoc] using this

theorem splitList_single_none (c : Char) (l : List Char) (h : c ∉ l) :
    splitList [c] l = [l] :=
  splitList_no_occ [c] l (hasOcc_single c l h)

theorem pySplit_salesUrl (p : String) (hp : ('/' : Char) ∉ p.data) :
    pySplit (StockX.salesUrl p) "/" =
      ["https:", "", "stockx.com", "api", "products", p,
        "activity?state=480&currency=USD&limit=10000&page=1"] := by
  have hdata : (StockX.salesUrl p).data =
      "https:".data ++ '/' :: ([] ++ '/' :: ("stockx.com".data ++ '/' ::
        ("api".data ++ '/' :: ("products".data ++ '/' ::
          (p.data ++ '/' ::
            "activity?state=480&currency=USD&limit=10000&page=1".data))))) := rfl
  unfold pySplit
  rw [show ("/" : String).data = ['/'] from rfl, hdata]
  rw [splitList_single_sep _ _ _ (by decide)]
  rw [splitList_single_sep _ _ _ (by decide)]
  rw [splitList_single_sep _ _ _ (by decide)]
  rw [splitList_single_sep _ _ _ (by decide)]
  rw [splitList_single_sep _ _ _ (by decide)]
  rw [splitList_single_sep _ _ _ hp]
  rw [splitList_single_none _ _ (by decide)]
  rfl

theorem pyIndex_zero {α : Type} (x : α) (l : List α) : pyIndex (x :: l) 0 = .ok x := by
  simp [pyIndex]

theorem lastPageOf_embedded (s : String) (pre suf : List Char) (d : String) (n : Int)
    (hs : s.data = pre ++ "page=".data ++ d.data ++ suf)
    (hfirst : hasOcc "page=".data ((pre ++ "page=".data).dropLast) = false)
    (hlast : hasOcc "page=".data (d.data ++ suf) = false)
    (hsuf : suf = [] ∨ ∃ t, suf = '&' :: t)
    (hd : ('&' : Char) ∉ d.data)
    (hn : pyInt d = .ok n) :
    lastPageOf s = .ok n := by
  unfold lastPageOf
  have hsplit : pySplit s "page=" = [String.mk pre, String.mk (d.data ++ suf)] := by
    unfold pySplit
    rw [hs, List.append_assoc (pre ++ "page=".data) d.data suf]
    rw [splitList_first_occ _ (by decide) pre _ hfirst]
    rw [splitList_no_occ _ _ hlast]
    rfl
  rw [hsplit]
  rw [show pyIndex [String.mk pre, String.mk (d.data ++ suf)] 1 =
    .ok (String.mk (d.data ++ suf)) from rfl]
  rw [exceptBind_ok]
  rcases hsuf with h | ⟨t, h⟩
  · subst h
    have hsplit2 : pySplit (String.mk (d.data ++ [])) "&" = [String.mk d.data] := by
      unfold pySplit
      simp only [List.append_nil]
      rw [splitList_single_none _ _ hd]
      rfl
    rw [hsplit2]
    rw [show pyIndex [String.mk d.data] 0 = .ok (String.mk d.data) from rfl]
    rw [exceptBind_ok]
    exact hn
  · subst h
    have hsplit2 : pySplit (String.mk (d.data ++ '&' :: t)) "&" =
        String.mk d.data :: (splitList ['&'] t).map String.mk := by
      unfold pySplit
      rw [show ("&" : String).data = ['&'] from rfl]
      rw [show (String.mk (d.data ++ '&' :: t)).data = d.data ++ '&' :: t from rfl]
      rw [splitList_single_sep _ _ _ hd]
      rfl
    rw [hsplit2, pyIndex_zero]
    rw [exceptBind_ok]
    exact hn

/-! ### The claims -/

/-- C1: when every request of a run succeeds (the per-URL unit of work
returns a parsed document), a fetch over N URLs stores exactly N documents
in the corresponding accumulator — one per input URL, regardless of the
completion order of the pool's workers; this holds for `get_product_info`
and for `get_product_sales_history`. -/
theorem claim1_fetch_all_success_counts
    (env : HttpEnv) (urls order products orderS : List String)
    (docs docsS : String → Json)
    (hperm : order.Perm urls)
    (hok : ∀ u ∈ urls, StockX._scrape env u = .ok (docs u))
    (hpermS : orderS.Perm (products.map StockX.salesUrl))
    (hokS : ∀ u ∈ products.map StockX.salesUrl,
      StockX._scrape_sales_history env u = .ok (docsS u)) :
    ((StockX.get_product_info env [] order).length = urls.length ∧
      (StockX.get_product_info env [] order).Perm (urls.map docs)) ∧
    ((StockX.get_product_sales_history env [] orderS).length = products.length ∧
      (StockX.get_product_sales_history env [] orderS).Perm
        ((products.map StockX.salesUrl).map docsS)) := by
  have gp : StockX.get_product_info env [] order = order.map docs := by
    unfold StockX.get_product_info
    rw [executor_map_eq_filterMap, List.nil_append]
    exact filterMap_eq_map_of _ _ _ fun u hu => by
      show (StockX._scrape env u).toOption = some (docs u)
      rw [hok u (hperm.subset hu)]
      rfl
  have gs : StockX.get_product_sales_history env [] orderS = orderS.map docsS := by
    unfold StockX.get_product_sales_history
    rw [executor_map_eq_filterMap, List.nil_append]
    exact filterMap_eq_map_of _ _ _ fun u hu => by
      show (StockX._scrape_sales_history env u).toOption = some (docsS u)
      rw [hokS u (hpermS.subset hu)]
      rfl
  refine ⟨⟨?_, ?_⟩, ⟨?_, ?_⟩⟩
  · rw [gp, List.length_map, hperm.length_eq]
  · rw [gp]; exact hperm.map docs
  · rw [gs, List.length_map, hpermS.length_eq, List.length_map]
  · rw [gs]; exact hpermS.map docsS

/-- Witness for C1: a one-URL product fetch and a one-product sales fetch
against a concrete environment. -/
theorem claim1_fetch_all_success_counts_witness :
    (∀ u ∈ (["a"] : List String),
      StockX._scrape
        (fun _ => .ok (Json.mkObj [("ProductActivity", Json.mkArr [Json.mkObj []])])) u =
        .ok (Json.mkObj [("ProductActivity", Json.mkArr [Json.mkObj []])])) ∧
    (((StockX.get_product_info
        (fun _ => .ok (Json.mkObj [("ProductActivity", Json.mkArr [Json.mkObj []])]))
        [] ["a"]).length = (["a"] : List String).length ∧
      (StockX.get_product_info
        (fun _ => .ok (Json.mkObj [("ProductActivity", Json.mkArr [Json.mkObj []])]))
        [] ["a"]).Perm ((["a"] : List String).map
          (fun _ => Json.mkObj [("ProductActivity", Json.mkArr [Json.mkObj []])]))) ∧
    ((StockX.get_product_sales_history
        (fun _ => .ok (Json.mkObj [("ProductActivity", Json.mkArr [Json.mkObj []])]))
        [] [StockX.salesUrl "p"]).length = (["p"] : List String).length ∧
      (StockX.get_product_sales_history
        (fun _ => .ok (Json.mkObj [("ProductActivity", Json.mkArr [Json.mkObj []])]))
        [] [StockX.salesUrl "p"]).Perm
        (((["p"] : List String).map StockX.salesUrl).map
          (fun _ => Json.mkObj [("ProductActivity",
            Json.mkArr [Json.mkObj [("productId", Json.str "p")]])])))) :=
  ⟨by decide,
    claim1_fetch_all_success_counts
      (fun _ => .ok (Json.mkObj [("ProductActivity", Json.mkArr [Json.mkObj []])]))
      ["a"] ["a"] ["p"] [StockX.salesUrl "p"]
      (fun _ => Json.mkObj [("ProductActivity", Json.mkArr [Json.mkObj []])])
      (fun _ => Json.mkObj [("ProductActivity",
        Json.mkArr [Json.mkObj [("productId", Json.str "p")]])])
      (by decide) (by decide) (by decide) (by decide)⟩

/-- C2 is false on the code at this input: the first URL's body fails to
parse, yet the fetch does not abort — `executor.map`'s result iterator is
discarded, the exception stays inside the never-read future, the second
URL is still fetched and its document stored. -/
theorem claim2_counterexample :
    StockX._scrape
        (fun u => if u = "good" then .ok (.bool true) else .error .jsonDecodeError)
        "bad" = .error .jsonDecodeError ∧
    StockX.get_product_info
        (fun u => if u = "good" then .ok (.bool true) else .error .jsonDecodeError)
        [] ["bad", "good"] = [.bool true] := by decide

/-- C2 (amended): a failed request (network error, non-2xx body that is not
JSON, or malformed payload shape) aborts only that URL's unit of work: its
document is not appended, the exception is captured by the executor in the
never-consumed future of `executor.map`, no error propagates out of the
fetch, and the run continues — the accumulator receives exactly the
documents of the successfully handled URLs, in completion order, with no
retry. -/
theorem claim2_amended_failures_skipped (env : HttpEnv) (acc : List Json)
    (order orderS : List String) :
    StockX.get_product_info env acc order =
      acc ++ order.filterMap (fun u => (StockX._scrape env u).toOption) ∧
    StockX.get_product_sales_history env acc orderS =
      acc ++ orderS.filterMap (fun u => (StockX._scrape_sales_history env u).toOption) :=
  ⟨executor_map_eq_filterMap _ _ _, executor_map_eq_filterMap _ _ _⟩

/-- C4: when the page-1 listing response is not valid JSON, or the
pagination extraction fails on the parsed document (missing `Pagination` or
`lastPage`, a non-string value, no `page=` marker, a non-numeric page
number), `get_category_urls` fails with an error of the spec's ParseError
class and produces no URLs. -/
theorem claim4_resolve_pages_failure (env : HttpEnv) (tag category : String) :
    (env (listingUrl tag category 1) = .error .jsonDecodeError →
      StockX.get_category_urls env tag category = .error .jsonDecodeError) ∧
    (∀ data e, env (listingUrl tag category 1) = .ok data →
      paginationParse data = .error e →
      StockX.get_category_urls env tag category = .error e ∧
        e.isParseError = true) := by
  constructor
  · intro h
    unfold StockX.get_category_urls
    rw [h, exceptBind_error]
  · intro data e h1 h2
    refine ⟨?_, paginationParse_error_isParse data e h2⟩
    unfold StockX.get_category_urls
    rw [h1, exceptBind_ok, h2, exceptBind_error]

/-- Witness for C4: a listing response without a `Pagination` field. -/
theorem claim4_resolve_pages_failure_witness :
    paginationParse (Json.mkObj []) = .error (.keyError "Pagination") ∧
    (StockX.get_category_urls (fun _ => .ok (Json.mkObj [])) "t" "c" =
        .error (.keyError "Pagination") ∧
      (PyError.keyError "Pagination").isParseError = true) :=
  ⟨by decide,
    (claim4_resolve_pages_failure (fun _ => .ok (Json.mkObj [])) "t" "c").2
      (Json.mkObj []) (.keyError "Pagination") (by decide) (by decide)⟩

/-- C9 is a slip in the code, not an inert quirk: each `@property` getter
shadows the attribute of its own name without a setter, so the very first
assignment in `__init__` (`self.api = ...`) raises `AttributeError` and no
session object can ever be constructed — unlike the plain-field constructor
the spec prescribes, which yields the five expected fields. -/
theorem claim9_accessors_evaluated :
    StockX.init = .error .attributeError ∧
    StockX.init_plain =
      [("api", .str api), ("sales_api", .str sales_api), ("headers", .null),
        ("_scraped_products", Json.mkArr []),
        ("_scraped_sales_history", Json.mkArr [])] := by decide

/-- C10: a sales-history response whose `ProductActivity` field is an empty
list makes the worker fail with `IndexError` before anything is appended:
the identifier is injected into entry 0, so a non-empty activity list is a
precondition for a record to be stored. -/
theorem claim10_empty_activity_no_append (env : HttpEnv) (url : String) (data : Json)
    (henv : env url = .ok data)
    (hact : pyGetItem data "ProductActivity" = .ok (.arr .nil)) :
    StockX._scrape_sales_history env url = .error .indexError ∧
    ∀ acc : List Json, StockX.get_product_sales_history env acc [url] = acc := by
  have hmain : StockX._scrape_sales_history env url = .error .indexError := by
    unfold StockX._scrape_sales_history
    rw [henv, exceptBind_ok]
    unfold StockX.injectId
    cases hs : pyIndex (pySplit url "/") 5 with
    | error e =>
        rw [exceptBind_error, pyIndex_error _ _ _ hs]
    | ok pid =>
        rw [exceptBind_ok, hact, exceptBind_ok]
  refine ⟨hmain, fun acc => ?_⟩
  show StockX.executor_map _ acc [url] = acc
  simp [StockX.executor_map, hmain]

/-- Witness for C10: a concrete empty `ProductActivity` response. -/
theorem claim10_empty_activity_no_append_witness :
    pyGetItem (Json.mkObj [("ProductActivity", Json.mkArr [])]) "ProductActivity" =
        .ok (.arr .nil) ∧
    StockX._scrape_sales_history
        (fun _ => .ok (Json.mkObj [("ProductActivity", Json.mkArr [])]))
        (StockX.salesUrl "p") = .error .indexError ∧
    StockX.get_product_sales_history
        (fun _ => .ok (Json.mkObj [("ProductActivity", Json.mkArr [])]))
        [Json.null] [StockX.salesUrl "p"] = [Json.null] :=
  ⟨by decide,
    (claim10_empty_activity_no_append
      (fun _ => .ok (Json.mkObj [("ProductActivity", Json.mkArr [])]))
      (StockX.salesUrl "p") (Json.mkObj [("ProductActivity", Json.mkArr [])])
      (by decide) (by decide)).1,
    (claim10_empty_activity_no_append
      (fun _ => .ok (Json.mkObj [("ProductActivity", Json.mkArr [])]))
      (StockX.salesUrl "p") (Json.mkObj [("ProductActivity", Json.mkArr [])])
      (by decide) (by decide)).2 [Json.null]⟩

/-- C3: when the page-1 listing response parses and its
`Pagination.lastPage` string embeds `page=N` (first occurrence of the
`page=` marker, digits terminated by an ampersand or the end of the
string, N positive), `get_category_urls` returns exactly N URLs, the
tag/category query fixed and `page` substituted by 1..N; for an embedded
`page=1` this is exactly one URL. -/
theorem claim3_resolve_pages_count (env : HttpEnv) (tag category : String)
    (data pag : Json) (s : String) (pre suf : List Char) (d : String) (n : Nat)
    (henv : env (listingUrl tag category 1) = .ok data)
    (hpag : pyGetItem data "Pagination" = .ok pag)
    (hlp : pyGetItem pag "lastPage" = .ok (.str s))
    (hs : s.data = pre ++ "page=".data ++ d.data ++ suf)
    (hfirst : hasOcc "page=".data ((pre ++ "page=".data).dropLast) = false)
    (hlast : hasOcc "page=".data (d.data ++ suf) = false)
    (hsuf : suf = [] ∨ ∃ t, suf = '&' :: t)
    (hd : ('&' : Char) ∉ d.data)
    (hn : pyInt d = .ok (Int.ofNat n))
    (hpos : 1 ≤ n) :
    StockX.get_category_urls env tag category =
      .ok ((List.range n).map fun i => listingUrl tag category (i + 1)) ∧
    ((List.range n).map fun i => listingUrl tag category (i + 1)).length = n := by
  have hparse : paginationParse data = .ok (Int.ofNat n) := by
    unfold paginationParse
    rw [hpag, exceptBind_ok, hlp, exceptBind_ok]
    rw [show pyStrVal (.str s) = .ok s from rfl, exceptBind_ok]
    exact lastPageOf_embedded s pre suf d _ hs hfirst hlast hsuf hd hn
  constructor
  · unfold StockX.get_category_urls
    rw [henv, exceptBind_ok, hparse, exceptBind_ok]
    rw [show (Int.ofNat n).toNat = n from by simp]
    rfl
  · simp

/-- Witness for C3: a concrete listing response whose pagination embeds
`page=5` at the end of the query string. -/
theorem claim3_resolve_pages_count_witness :
    pyInt "5" = .ok (Int.ofNat 5) ∧
    (StockX.get_category_urls
        (fun u => if u = listingUrl "air jordan" "sneakers" 1 then
            .ok (Json.mkObj [("Pagination", Json.mkObj [("lastPage",
              .str "/api/browse?_tags=air jordan&productCategory=sneakers&page=5")])])
          else .error .networkError)
        "air jordan" "sneakers" =
        .ok ((List.range 5).map fun i => listingUrl "air jordan" "sneakers" (i + 1)) ∧
      ((List.range 5).map fun i =>
        listingUrl "air jordan" "sneakers" (i + 1)).length = 5) :=
  ⟨by decide,
    claim3_resolve_pages_count
      (fun u => if u = listingUrl "air jordan" "sneakers" 1 then
          .ok (Json.mkObj [("Pagination", Json.mkObj [("lastPage",
            .str "/api/browse?_tags=air jordan&productCategory=sneakers&page=5")])])
        else .error .networkError)
      "air jordan" "sneakers"
      (Json.mkObj [("Pagination", Json.mkObj [("lastPage",
        .str "/api/browse?_tags=air jordan&productCategory=sneakers&page=5")])])
      (Json.mkObj [("lastPage",
        .str "/api/browse?_tags=air jordan&productCategory=sneakers&page=5")])
      "/api/browse?_tags=air jordan&productCategory=sneakers&page=5"
      "/api/browse?_tags=air jordan&productCategory=sneakers&".data [] "5" 5
      (by decide) (by decide) (by decide) (by decide) (by decide) (by decide)
      (Or.inl rfl) (by decide) (by decide) (by decide)⟩

theorem ffillAux_spec {α : Type} :
    ∀ (col : List (Option α)) (last : Option α),
      ffillAux last col = (List.range col.length).map fun i =>
        (col.take (i + 1)).foldl
          (fun acc x => match x with | some v => some v | none => acc) last := by
  intro col
  induction col with
  | nil => intro last; rfl
  | cons c rest ih =>
      intro last
      cases c with
      | none =>
          simp only [ffillAux, List.length_cons, List.range_succ_eq_map,
            List.map_cons, List.map_map]
          congr 1
          rw [ih last]
          exact List.map_congr_left fun i _ => rfl
      | some v =>
          simp only [ffillAux, List.length_cons, List.range_succ_eq_map,
            List.map_cons, List.map_map]
          congr 1
          rw [ih (some v)]
          exact List.map_congr_left fun i _ => rfl

/-- C6: forward fill gives every position the nearest preceding present
value (positions that already carry a value keep it, positions before the
first present value stay missing), and on the spec's example
`[A, null, B, null]` it yields `[A, A, B, B]`. -/
theorem claim6_ffill_spec {α : Type} (col : List (Option α)) :
    (ffill col = (List.range col.length).map fun i => lastValue (col.take (i + 1))) ∧
    (∀ (i : Nat) (v : α), col[i]? = some (some v) → (ffill col)[i]? = some (some v)) ∧
    (ffill [some "A", none, some "B", none] =
      [some "A", some "A", some "B", some "B"]) := by
  have h1 : ffill col = (List.range col.length).map fun i =>
      lastValue (col.take (i + 1)) := by
    unfold ffill lastValue
    exact ffillAux_spec col none
  refine ⟨h1, ?_, by decide⟩
  intro i v hv
  obtain ⟨hi, _⟩ := List.getElem?_eq_some_iff.mp hv
  rw [h1, List.getElem?_map, List.getElem?_range hi]
  show some (lastValue (col.take (i + 1))) = some (some v)
  have ht : col.take (i + 1) = col.take i ++ [some v] := by
    rw [List.take_succ, hv]
    rfl
  rw [ht]
  unfold lastValue
  rw [List.foldl_append]
  rfl

/-- Witness for C6 at a concrete column: position 0 carries a value and
keeps it through the fill. -/
theorem claim6_ffill_spec_witness :
    (ffill [some (1 : Nat), none])[0]? = some (some 1) :=
  (claim6_ffill_spec [some (1 : Nat), none]).2.1 0 1 (by decide)

theorem mergeKeyMatch_iff (a b : Option Json) :
    mergeKeyMatch a b = true ↔ ∃ k, a = some k ∧ b = some k := by
  cases a <;> cases b <;> simp [mergeKeyMatch]
  exact eq_comm

/-- C7: the left join of the sales table with the product table keeps every
sales row: each sales row yields at least one output row; a sales row whose
key matches no product id is emitted once, paired with no product row (all
product-derived columns NaN); a sales row whose key equals some product's
id is emitted paired with that product row. -/
theorem claim7_left_join_retains (sales products : List Row) (s : Row)
    (hs : s ∈ sales) :
    (∃ o, (s, o) ∈ merge_left sales products "productId" "id") ∧
    ((∀ p ∈ products, ∀ k, dfCell s "productId" = some k → dfCell p "id" ≠ some k) →
      (s, none) ∈ merge_left sales products "productId" "id") ∧
    (∀ p ∈ products, ∀ k, dfCell s "productId" = some k → dfCell p "id" = some k →
      (s, some p) ∈ merge_left sales products "productId" "id") := by
  refine ⟨?_, ?_, ?_⟩
  · cases hm : products.filter
        (fun r => mergeKeyMatch (dfCell s "productId") (dfCell r "id")) with
    | nil =>
        refine ⟨none, List.mem_flatMap.mpr ⟨s, hs, ?_⟩⟩
        simp only [merge_left, hm]
        simp
    | cons p ps =>
        refine ⟨some p, List.mem_flatMap.mpr ⟨s, hs, ?_⟩⟩
        simp only [merge_left, hm]
        simp
  · intro hnone
    have hm : products.filter
        (fun r => mergeKeyMatch (dfCell s "productId") (dfCell r "id")) = [] := by
      rw [List.filter_eq_nil_iff]
      intro p hp hmatch
      obtain ⟨k, hk1, hk2⟩ := (mergeKeyMatch_iff _ _).mp (by simpa using hmatch)
      exact hnone p hp k hk1 hk2
    refine List.mem_flatMap.mpr ⟨s, hs, ?_⟩
    simp only [merge_left, hm]
    simp
  · intro p hp k hk1 hk2
    have hmem : p ∈ products.filter
        (fun r => mergeKeyMatch (dfCell s "productId") (dfCell r "id")) := by
      rw [List.mem_filter]
      refine ⟨hp, ?_⟩
      simpa using (mergeKeyMatch_iff _ _).mpr ⟨k, hk1, hk2⟩
    cases hm : products.filter
        (fun r => mergeKeyMatch (dfCell s "productId") (dfCell r "id")) with
    | nil => rw [hm] at hmem; simp at hmem
    | cons q qs =>
        refine List.mem_flatMap.mpr ⟨s, hs, ?_⟩
        simp only [merge_left, hm]
        rw [hm] at hmem
        exact List.mem_map.mpr ⟨p, hmem, rfl⟩

/-- Witness for C7: a one-row sales table joined against an empty product
table keeps its row with no product columns. -/
theorem claim7_left_join_retains_witness :
    ([("productId", Json.str "X")] ∈ ([[("productId", Json.str "X")]] : List Row)) ∧
    (([("productId", Json.str "X")], (none : Option Row)) ∈
      merge_left [[("productId", Json.str "X")]] [] "productId" "id") :=
  ⟨by decide,
    (claim7_left_join_retains [[("productId", Json.str "X")]] []
      [("productId", Json.str "X")] (by decide)).2.1 (by simp)⟩

theorem normList_allObjs : ∀ (l : JsonList), l.allObjs = true →
    json_normalize.normList l = .ok (entryRows l)
  | .nil, _ => rfl
  | .cons (.obj g) rest, h => by
      have h' : rest.allObjs = true := by
        simpa [JsonList.allObjs] using h
      show (do
        let rows ← json_normalize.normList rest
        pure (flattenTop g :: rows)) = .ok (entryRows (.cons (.obj g) rest))
      rw [normList_allObjs rest h', exceptBind_ok]
      rfl
  | .cons .null _, h => by simp [JsonList.allObjs] at h
  | .cons (.bool _) _, h => by simp [JsonList.allObjs] at h
  | .cons (.num _) _, h => by simp [JsonList.allObjs] at h
  | .cons (.str _) _, h => by simp [JsonList.allObjs] at h
  | .cons (.arr _) _, h => by simp [JsonList.allObjs] at h

theorem entryRows_length : ∀ (l : JsonList), l.allObjs = true →
    (entryRows l).length = l.toList.length
  | .nil, _ => rfl
  | .cons (.obj g) rest, h => by
      have h' : rest.allObjs = true := by
        simpa [JsonList.allObjs] using h
      show (entryRows rest).length + 1 = rest.toList.length + 1
      rw [entryRows_length rest h']
  | .cons .null _, h => by simp [JsonList.allObjs] at h
  | .cons (.bool _) _, h => by simp [JsonList.allObjs] at h
  | .cons (.num _) _, h => by simp [JsonList.allObjs] at h
  | .cons (.str _) _, h => by simp [JsonList.allObjs] at h
  | .cons (.arr _) _, h => by simp [JsonList.allObjs] at h

theorem extractsObjList_spec (key : String) (d : Json)
    (h : extractsObjList key d = true) :
    pyGetItem d key = .ok (.arr (extractList key d)) ∧
      (extractList key d).allObjs = true := by
  unfold extractsObjList at h
  unfold extractList
  cases hg : pyGetItem d key with
  | error e => rw [hg] at h; simp at h
  | ok v =>
      rw [hg] at h
      cases v with
      | arr l => exact ⟨rfl, h⟩
      | null => simp at h
      | bool b => simp at h
      | num n => simp at h
      | str s => simp at h
      | obj g => simp at h

theorem mapM_normalize (key : String) :
    ∀ (docs : List Json), (∀ d ∈ docs, extractsObjList key d = true) →
      docs.mapM (fun data => do
        let v ← pyGetItem data key
        json_normalize v) =
        .ok (docs.map fun d => entryRows (extractList key d)) := by
  intro docs
  induction docs with
  | nil => intro _; rfl
  | cons dd rest ih =>
      intro h
      obtain ⟨hg, ha⟩ := extractsObjList_spec key dd (h dd (by simp))
      have hnorm : json_normalize (.arr (extractList key dd)) =
          .ok (entryRows (extractList key dd)) :=
        normList_allObjs (extractList key dd) ha
      rw [List.mapM_cons, hg, exceptBind_ok, hnorm, exceptBind_ok,
        ih fun d hd => h d (by simp [hd]), exceptBind_ok]
      rfl

theorem mem_tableCols_flatten (L : List (List Row)) (c : String) :
    c ∈ tableCols L.flatten ↔ ∃ t ∈ L, c ∈ tableCols t := by
  simp only [tableCols, List.mem_flatten, List.mem_map]
  constructor
  · rintro ⟨ks, ⟨row, hrow, rfl⟩, hc⟩
    obtain ⟨t, ht, hrt⟩ := hrow
    exact ⟨t, ht, ⟨row.map Prod.fst, ⟨row, hrt, rfl⟩, hc⟩⟩
  · rintro ⟨t, ht, ⟨ks, ⟨row, hrt, rfl⟩, hc⟩⟩
    exact ⟨row.map Prod.fst, ⟨row, ⟨t, ht, hrt⟩, rfl⟩, hc⟩

theorem project_spec (key : String) (docs : List Json) (h0 : docs ≠ [])
    (hk : ∀ d ∈ docs, extractsObjList key d = true) :
    (do
      let dfs ← docs.mapM fun data => do
        let v ← pyGetItem data key
        json_normalize v
      pd_concat dfs) =
      .ok ((docs.map fun d => entryRows (extractList key d)).flatten) ∧
    ((docs.map fun d => entryRows (extractList key d)).flatten).length =
      (docs.map fun d => (extractList key d).toList.length).sum ∧
    (∀ c, c ∈ tableCols ((docs.map fun d => entryRows (extractList key d)).flatten) ↔
      ∃ d ∈ docs, c ∈ tableCols (entryRows (extractList key d))) := by
  refine ⟨?_, ?_, ?_⟩
  · rw [mapM_normalize key docs hk, exceptBind_ok]
    unfold pd_concat
    cases docs with
    | nil => exact absurd rfl h0
    | cons d rest => rfl
  · rw [List.length_flatten, List.map_map]
    exact congrArg List.sum (List.map_congr_left fun d hd =>
      entryRows_length _ (extractsObjList_spec key d (hk d hd)).2)
  · intro c
    rw [mem_tableCols_flatten]
    constructor
    · rintro ⟨t, ht, hc⟩
      rw [List.mem_map] at ht
      obtain ⟨d, hd, rfl⟩ := ht
      exact ⟨d, hd, hc⟩
    · rintro ⟨d, hd, hc⟩
      exact ⟨entryRows (extractList key d), List.mem_map.mpr ⟨d, hd, rfl⟩, hc⟩

/-- C8 is false exactly on the empty accumulated collection: the claim
promises a table whose row count is the (empty) sum 0, but `pd.concat` of
no frames raises `ValueError`, so neither projector yields a table there. -/
theorem claim8_counterexample :
    StockX.product_info_to_dataframe [] = .error .valueError ∧
    StockX.sales_history_to_dataframe [] = .error .valueError := by decide

/-- C8 (amended): for every non-empty accumulated collection whose
documents each carry the extraction key bound to a list of dicts, the
projector yields a table whose row count is the sum of the lengths of the
documents' extracted lists and whose column set is the union of the
flattened, qualified keys across all entries; on an empty collection the
concatenation step fails with `ValueError` instead. -/
theorem claim8_amended_project_counts (docsP docsS : List Json)
    (hP : docsP ≠ []) (hPk : ∀ d ∈ docsP, extractsObjList "Products" d = true)
    (hS : docsS ≠ []) (hSk : ∀ d ∈ docsS, extractsObjList "ProductActivity" d = true) :
    (∃ t, StockX.product_info_to_dataframe docsP = .ok t ∧
      t.length = (docsP.map fun d => (extractList "Products" d).toList.length).sum ∧
      ∀ c, c ∈ tableCols t ↔
        ∃ d ∈ docsP, c ∈ tableCols (entryRows (extractList "Products" d))) ∧
    (∃ t, StockX.sales_history_to_dataframe docsS = .ok t ∧
      t.length = (docsS.map fun d => (extractList "ProductActivity" d).toList.length).sum ∧
      ∀ c, c ∈ tableCols t ↔
        ∃ d ∈ docsS, c ∈ tableCols (entryRows (extractList "ProductActivity" d))) := by
  obtain ⟨h1, h2, h3⟩ := project_spec "Products" docsP hP hPk
  obtain ⟨h1s, h2s, h3s⟩ := project_spec "ProductActivity" docsS hS hSk
  exact ⟨⟨_, h1, h2, h3⟩, ⟨_, h1s, h2s, h3s⟩⟩

/-- Witness for C8 (amended): two documents with three `Products` entries
each project to a table of 6 rows. -/
theorem claim8_amended_project_counts_witness :
    ([Json.mkObj [("Products", Json.mkArr
        [Json.mkObj [("id", .str "a1")], Json.mkObj [("id", .str "a2")],
          Json.mkObj [("id", .str "a3")]])],
      Json.mkObj [("Products", Json.mkArr
        [Json.mkObj [("id", .str "b1")], Json.mkObj [("id", .str "b2")],
          Json.mkObj [("id", .str "b3")]])]].map fun d =>
        (extractList "Products" d).toList.length).sum = 6 ∧
    ((∃ t, StockX.product_info_to_dataframe
        [Json.mkObj [("Products", Json.mkArr
          [Json.mkObj [("id", .str "a1")], Json.mkObj [("id", .str "a2")],
            Json.mkObj [("id", .str "a3")]])],
         Json.mkObj [("Products", Json.mkArr
          [Json.mkObj [("id", .str "b1")], Json.mkObj [("id", .str "b2")],
            Json.mkObj [("id", .str "b3")]])]] = .ok t ∧
      t.length = ([Json.mkObj [("Products", Json.mkArr
          [Json.mkObj [("id", .str "a1")], Json.mkObj [("id", .str "a2")],
            Json.mkObj [("id", .str "a3")]])],
         Json.mkObj [("Products", Json.mkArr
          [Json.mkObj [("id", .str "b1")], Json.mkObj [("id", .str "b2")],
            Json.mkObj [("id", .str "b3")]])]].map fun d =>
          (extractList "Products" d).toList.length).sum ∧
      ∀ c, c ∈ tableCols t ↔
        ∃ d ∈ [Json.mkObj [("Products", Json.mkArr
          [Json.mkObj [("id", .str "a1")], Json.mkObj [("id", .str "a2")],
            Json.mkObj [("id", .str "a3")]])],
         Json.mkObj [("Products", Json.mkArr
          [Json.mkObj [("id", .str "b1")], Json.mkObj [("id", .str "b2")],
            Json.mkObj [("id", .str "b3")]])]],
          c ∈ tableCols (entryRows (extractList "Products" d))) ∧
    (∃ t, StockX.sales_history_to_dataframe
        [Json.mkObj [("ProductActivity", Json.mkArr [Json.mkObj []])]] = .ok t ∧
      t.length = ([Json.mkObj [("ProductActivity", Json.mkArr [Json.mkObj []])]].map
        fun d => (extractList "ProductActivity" d).toList.length).sum ∧
      ∀ c, c ∈ tableCols t ↔
        ∃ d ∈ [Json.mkObj [("ProductActivity", Json.mkArr [Json.mkObj []])]],
          c ∈ tableCols (entryRows (extractList "ProductActivity" d)))) :=
  ⟨by decide,
    claim8_amended_project_counts
      [Json.mkObj [("Products", Json.mkArr
        [Json.mkObj [("id", .str "a1")], Json.mkObj [("id", .str "a2")],
          Json.mkObj [("id", .str "a3")]])],
       Json.mkObj [("Products", Json.mkArr
        [Json.mkObj [("id", .str "b1")], Json.mkObj [("id", .str "b2")],
          Json.mkObj [("id", .str "b3")]])]]
      [Json.mkObj [("ProductActivity", Json.mkArr [Json.mkObj []])]]
      (by decide) (by decide) (by decide) (by decide)⟩

theorem lookupKey_setKey (k : String) (v : Json) : ∀ (fs : JsonFields),
    lookupKey k (setKey k v fs) = some v
  | .nil => by simp [setKey, lookupKey]
  | .cons k' v' rest => by
      by_cases h : k' = k
      · simp [setKey, h, lookupKey]
      · simp [setKey, h, lookupKey, lookupKey_setKey k v rest]

mutual
theorem keysDot_val (key : String) (v : Json) :
    ∀ kk ∈ (flattenVal key v).map Prod.fst, kk = key ∨ ('.' : Char) ∈ kk.data := by
  cases v with
  | obj fields =>
      intro kk hk
      exact Or.inr (keysDot_nested key fields kk hk)
  | null => intro kk hk; simp [flattenVal] at hk; exact Or.inl hk
  | bool b => intro kk hk; simp [flattenVal] at hk; exact Or.inl hk
  | num n => intro kk hk; simp [flattenVal] at hk; exact Or.inl hk
  | str s => intro kk hk; simp [flattenVal] at hk; exact Or.inl hk
  | arr l => intro kk hk; simp [flattenVal] at hk; exact Or.inl hk
theorem keysDot_nested (pre : String) (fs : JsonFields) :
    ∀ kk ∈ (flattenNested pre fs).map Prod.fst, ('.' : Char) ∈ kk.data := by
  cases fs with
  | nil => intro kk hk; simp [flattenNested] at hk
  | cons k v rest =>
      intro kk hk
      simp only [flattenNested, List.map_append, List.mem_append] at hk
      rcases hk with hk | hk
      · rcases keysDot_val (pre ++ "." ++ k) v kk hk with h | h
        · subst h
          have hsplit : (pre ++ "." ++ k).data = pre.data ++ ("." ++ k).data := by
            rw [String.append_assoc]
            exact String.data_append _ _
          rw [hsplit]
          refine List.mem_append.mpr (Or.inr ?_)
          rw [String.data_append]
          exact List.mem_append.mpr (Or.inl (by simp [String.data]))
        · exact h
      · exact keysDot_nested pre rest kk hk
end

theorem lookupRow_eq_none_of_not_mem (k : String) :
    ∀ (row : Row), k ∉ row.map Prod.fst → lookupRow k row = none := by
  intro row
  induction row with
  | nil => intro _; rfl
  | cons kv rest ih =>
      intro h
      obtain ⟨k', v'⟩ := kv
      have h1 : k' ≠ k := by
        intro hx
        exact h (by simp [hx])
      have h2 : k ∉ rest.map Prod.fst := fun hx => h (by simp [hx])
      simp [lookupRow, h1, ih h2]

theorem lookupRow_append_none (k : String) :
    ∀ (a b : Row), lookupRow k a = none →
      lookupRow k (a ++ b) = lookupRow k b := by
  intro a
  induction a with
  | nil => intro b _; rfl
  | cons kv rest ih =>
      intro b h
      obtain ⟨k', v'⟩ := kv
      by_cases h1 : k' = k
      · simp [lookupRow, h1] at h
      · simp only [lookupRow, h1, if_false, List.cons_append] at h ⊢
        exact ih b h

theorem lookupRow_flattenVal_none (k key : String) (v : Json)
    (hne : k ≠ key) (hdot : ('.' : Char) ∉ k.data) :
    lookupRow k (flattenVal key v) = none := by
  apply lookupRow_eq_none_of_not_mem
  intro hmem
  rcases keysDot_val key v k hmem with h | h
  · exact hne h
  · exact hdot h

theorem lookupRow_flattenTop_setKey (p : String) : ∀ (fs : JsonFields),
    lookupRow "productId" (flattenTop (setKey "productId" (.str p) fs)) =
      some (.str p)
  | .nil => by simp [setKey, flattenTop, flattenVal, lookupRow]
  | .cons k' v' rest => by
      by_cases h : k' = "productId"
      · subst h
        simp [setKey, flattenTop, flattenVal, lookupRow]
      · rw [show setKey "productId" (.str p) (.cons k' v' rest) =
          .cons k' v' (setKey "productId" (.str p) rest) from by simp [setKey, h]]
        show lookupRow "productId"
          (flattenVal k' v' ++ flattenTop (setKey "productId" (.str p) rest)) = _
        rw [lookupRow_append_none _ _ _
          (lookupRow_flattenVal_none "productId" k' v' (fun hx => h hx.symm)
            (by decide))]
        exact lookupRow_flattenTop_setKey p rest

theorem dfCell_flattenTop_setKey (p : String) (fs : JsonFields) :
    dfCell (flattenTop (setKey "productId" (.str p) fs)) "productId" =
      some (.str p) := by
  unfold dfCell
  rw [lookupRow_flattenTop_setKey]

theorem ffillAux_replicate {α : Type} (v : α) : ∀ (k : Nat) (rest : List (Option α)),
    ffillAux (some v) (List.replicate k none ++ rest) =
      List.replicate k (some v) ++ ffillAux (some v) rest := by
  intro k
  induction k with
  | zero => intro rest; rfl
  | succ m ih =>
      intro rest
      show some v :: ffillAux (some v) (List.replicate m none ++ rest) = _
      rw [ih rest]
      rfl

theorem ffill_blocks {α : Type} : ∀ (blocks : List (α × Nat)) (last : Option α),
    ffillAux last ((blocks.map fun b => some b.1 :: List.replicate b.2 none).flatten) =
      (blocks.map fun b => List.replicate (b.2 + 1) (some b.1)).flatten := by
  intro blocks
  induction blocks with
  | nil => intro last; rfl
  | cons b rest ih =>
      intro last
      simp only [List.map_cons, List.flatten_cons, List.cons_append]
      show some b.1 :: ffillAux (some b.1)
        (List.replicate b.2 none ++ (rest.map fun b => some b.1 ::
          List.replicate b.2 none).flatten) = _
      rw [ffillAux_replicate, ih (some b.1)]
      rfl

theorem productIdColumn_flatten (L : List (List Row)) :
    productIdColumn L.flatten = (L.map productIdColumn).flatten := by
  simp only [productIdColumn, List.map_flatten]
  rfl

theorem productIdColumn_none (rows : List Row)
    (h : ∀ r ∈ rows, dfCell r "productId" = none) :
    productIdColumn rows = List.replicate rows.length none := by
  induction rows with
  | nil => rfl
  | cons r rest ih =>
      show dfCell r "productId" :: productIdColumn rest = _
      rw [h r (by simp), ih fun x hx => h x (List.mem_cons_of_mem r hx)]
      rfl

/-- C5: the identifier a sales fetch injects into the stored record is
exactly the product id segment parsed from the source URL (`p`, for the URL
`get_product_sales_history` builds from `p`), both at JSON level and in the
flattened first row; and, for stored records whose remaining activity rows
carry no product identifier (the API does not embed it), the projector's
forward fill propagates each record's identifier to every activity row of
that record before the join. -/
theorem claim5_injected_id_propagates (p : String) (hp : ('/' : Char) ∉ p.data)
    (env : HttpEnv) (data : Json) (f0 : JsonFields) (rest0 : JsonList)
    (henv : env (StockX.salesUrl p) = .ok data)
    (hact : pyGetItem data "ProductActivity" = .ok (.arr (.cons (.obj f0) rest0)))
    (recs : List SalesShape) (hrecs : recs ≠ [])
    (hshape : ∀ r ∈ recs,
      pyGetItem r.doc "ProductActivity" = .ok (.arr (.cons (.obj r.e0) r.rest)) ∧
      r.rest.allObjs = true ∧
      dfCell (flattenTop r.e0) "productId" = some (.str r.pid) ∧
      ∀ row ∈ entryRows r.rest, dfCell row "productId" = none) :
    (StockX._scrape_sales_history env (StockX.salesUrl p) =
        .ok (StockX.injectId.setObjField data "ProductActivity"
          (.arr (.cons (.obj (setKey "productId" (.str p) f0)) rest0))) ∧
      lookupKey "productId" (setKey "productId" (.str p) f0) = some (.str p) ∧
      dfCell (flattenTop (setKey "productId" (.str p) f0)) "productId" =
        some (.str p)) ∧
    (∃ t, StockX.sales_history_to_dataframe (recs.map fun r => r.doc) = .ok t ∧
      ffill (productIdColumn t) =
        (recs.map fun r =>
          List.replicate (r.rest.toList.length + 1) (some (Json.str r.pid))).flatten) := by
  constructor
  · refine ⟨?_, lookupKey_setKey _ _ f0, dfCell_flattenTop_setKey p f0⟩
    unfold StockX._scrape_sales_history
    rw [henv, exceptBind_ok]
    unfold StockX.injectId
    rw [pySplit_salesUrl p hp]
    rw [show pyIndex ["https:", "", "stockx.com", "api", "products", p,
      "activity?state=480&currency=USD&limit=10000&page=1"] 5 = .ok p from rfl]
    rw [exceptBind_ok, hact, exceptBind_ok]
    rfl
  · have hEx : ∀ r ∈ recs,
        extractList "ProductActivity" r.doc = .cons (.obj r.e0) r.rest := by
      intro r hr
      obtain ⟨hget, _, _, _⟩ := hshape r hr
      unfold extractList
      rw [hget]
    have hmapM := mapM_normalize "ProductActivity" (recs.map fun r => r.doc) (by
      intro d hd
      rw [List.mem_map] at hd
      obtain ⟨r, hr, rfl⟩ := hd
      obtain ⟨hget, hall, _, _⟩ := hshape r hr
      unfold extractsObjList
      rw [hget]
      simpa [JsonList.allObjs] using hall)
    refine ⟨((recs.map fun r => r.doc).map fun d =>
      entryRows (extractList "ProductActivity" d)).flatten, ?_, ?_⟩
    · unfold StockX.sales_history_to_dataframe
      rw [hmapM, exceptBind_ok]
      unfold pd_concat
      cases recs with
      | nil => exact absurd rfl hrecs
      | cons r rest => rfl
    · rw [productIdColumn_flatten, List.map_map, List.map_map]
      have hcols : recs.map
          ((productIdColumn ∘ fun d => entryRows (extractList "ProductActivity" d)) ∘
            fun r => r.doc) =
          recs.map (fun r =>
            some (Json.str r.pid) :: List.replicate (entryRows r.rest).length none) := by
        apply List.map_congr_left
        intro r hr
        obtain ⟨hget, hall, hfirstCell, hrest⟩ := hshape r hr
        show productIdColumn (entryRows (extractList "ProductActivity" r.doc)) = _
        rw [hEx r hr]
        show dfCell (flattenTop r.e0) "productId" ::
          productIdColumn (entryRows r.rest) = _
        rw [hfirstCell, productIdColumn_none _ hrest]
      rw [hcols]
      unfold ffill
      have hb := ffill_blocks
        (recs.map fun r => (Json.str r.pid, (entryRows r.rest).length)) none
      rw [List.map_map, List.map_map] at hb
      rw [show recs.map (fun r =>
          some (Json.str r.pid) :: List.replicate (entryRows r.rest).length none) =
        recs.map ((fun b => some b.1 :: List.replicate b.2 none) ∘
          fun r => (Json.str r.pid, (entryRows r.rest).length)) from rfl]
      rw [hb]
      congr 1
      apply List.map_congr_left
      intro r hr
      obtain ⟨_, hall, _, _⟩ := hshape r hr
      show List.replicate ((entryRows r.rest).length + 1) (some (Json.str r.pid)) = _
      rw [entryRows_length r.rest hall]

/-- Witness for C5: a one-product fetch of a two-entry activity payload,
and one stored record whose second row lacks the identifier. -/
theorem claim5_injected_id_propagates_witness :
    (('/' : Char) ∉ ("p9" : String).data) ∧
    ((StockX._scrape_sales_history
        (fun _ => .ok (Json.mkObj [("ProductActivity",
          Json.mkArr [Json.mkObj [("v", .num 1)], Json.mkObj [("w", .num 2)]])]))
        (StockX.salesUrl "p9") =
        .ok (StockX.injectId.setObjField
          (Json.mkObj [("ProductActivity",
            Json.mkArr [Json.mkObj [("v", .num 1)], Json.mkObj [("w", .num 2)]])])
          "ProductActivity"
          (.arr (.cons (.obj (setKey "productId" (.str "p9")
            (JsonFields.ofList [("v", .num 1)])))
            (JsonList.ofList [Json.mkObj [("w", .num 2)]])))) ∧
      lookupKey "productId" (setKey "productId" (.str "p9")
        (JsonFields.ofList [("v", .num 1)])) = some (.str "p9") ∧
      dfCell (flattenTop (setKey "productId" (.str "p9")
        (JsonFields.ofList [("v", .num 1)]))) "productId" = some (.str "p9")) ∧
    (∃ t, StockX.sales_history_to_dataframe
        ([SalesShape.mk "p9"
          (Json.mkObj [("ProductActivity",
            Json.mkArr [Json.mkObj [("v", .num 1), ("productId", .str "p9")],
              Json.mkObj [("w", .num 2)]])])
          (JsonFields.ofList [("v", .num 1), ("productId", .str "p9")])
          (JsonList.ofList [Json.mkObj [("w", .num 2)]])].map fun r => r.doc) =
        .ok t ∧
      ffill (productIdColumn t) =
        ([SalesShape.mk "p9"
          (Json.mkObj [("ProductActivity",
            Json.mkArr [Json.mkObj [("v", .num 1), ("productId", .str "p9")],
              Json.mkObj [("w", .num 2)]])])
          (JsonFields.ofList [("v", .num 1), ("productId", .str "p9")])
          (JsonList.ofList [Json.mkObj [("w", .num 2)]])].map fun r =>
            List.replicate (r.rest.toList.length + 1)
              (some (Json.str r.pid))).flatten)) :=
  ⟨by decide,
    claim5_injected_id_propagates "p9" (by decide)
      (fun _ => .ok (Json.mkObj [("ProductActivity",
        Json.mkArr [Json.mkObj [("v", .num 1)], Json.mkObj [("w", .num 2)]])]))
      (Json.mkObj [("ProductActivity",
        Json.mkArr [Json.mkObj [("v", .num 1)], Json.mkObj [("w", .num 2)]])])
      (JsonFields.ofList [("v", .num 1)])
      (JsonList.ofList [Json.mkObj [("w", .num 2)]])
      (by decide) (by decide)
      [SalesShape.mk "p9"
        (Json.mkObj [("ProductActivity",
          Json.mkArr [Json.mkObj [("v", .num 1), ("productId", .str "p9")],
            Json.mkObj [("w", .num 2)]])])
        (JsonFields.ofList [("v", .num 1), ("productId", .str "p9")])
        (JsonList.ofList [Json.mkObj [("w", .num 2)]])]
      (by decide) (by decide)⟩

end StockXSpec
